import Mathlib

set_option maxRecDepth 4000

/-!
Shallow embedding of `src/scrape_and_build_ics.py` (the Wembley events
feed builder) and proofs about its spec claims.

Conventions of the embedding:
* Python `datetime` values are modelled by the `Datetime` structure of
  naive calendar fields; `None` becomes `Option`.
* Code that can raise an exception that escapes the function is modelled
  with `Option` results (`none` = the call raises).
* `BeautifulSoup` and `json.loads` are external collaborators: the
  structured extractor receives the list of `application/ld+json` script
  blocks, each already parsed to a `Json` value (`none` for a block whose
  contents do not parse), and the fallback extractor receives the list of
  selected cards with their link text, href and container text.
-/

/-! ### Module constants (source lines 13-15) -/

def EVENTS_URL : String := "https://www.wembleystadium.com/events"

def CAL_NAME : String := "Wembley Stadium Events (Auto)"

def TZ : String := "Europe/London"

/-! ### Character helpers

Python's `str.strip`, `str.lower`, `\d`, `\s`, `\w` restricted to the
ASCII range (the inputs the program handles are ASCII markup fields). -/

def lowCh (c : Char) : Char :=
  if 65 ≤ c.toNat ∧ c.toNat ≤ 90 then Char.ofNat (c.toNat + 32) else c

def strLower (s : String) : String := String.mk (s.data.map lowCh)

def isDigitCh (c : Char) : Bool := 48 ≤ c.toNat && c.toNat ≤ 57

def digitVal (c : Char) : Nat := c.toNat - 48

def isWsCh (c : Char) : Bool :=
  c == ' ' || c == '\t' || c == '\n' || c == '\r' || c == '\x0b' || c == '\x0c'

def isWordCh (c : Char) : Bool :=
  isDigitCh c || (97 ≤ (lowCh c).toNat && (lowCh c).toNat ≤ 122) || c == '_'

def dropTrailWs (l : List Char) : List Char :=
  (l.reverse.dropWhile isWsCh).reverse

/-- Python `str.strip()` on the character list. -/
def stripList (l : List Char) : List Char := dropTrailWs (l.dropWhile isWsCh)

def pyStrip (s : String) : String := String.mk (stripList s.data)

/-- Python `str.startswith`. -/
def pyStartsWith (s pre : String) : Bool := pre.data.isPrefixOf s.data

/-! ### A minimal JSON value type (the output shape of `json.loads`) -/

inductive Json where
  | null : Json
  | bool (b : Bool) : Json
  | num (n : Int) : Json
  | str (s : String) : Json
  | arr (elems : List Json) : Json
  | obj (fields : List (String × Json)) : Json

def jLookup (k : String) : List (String × Json) → Option Json
  | [] => none
  | (k2, v) :: rest => if k2 == k then some v else jLookup k rest

/-- Python `d.get(k)` (dict keys are unique, first match). -/
def jGet (j : Json) (k : String) : Option Json :=
  match j with
  | .obj fs => jLookup k fs
  | _ => none

/-- Python truthiness of a JSON value. -/
def jTruthy : Json → Bool
  | .null => false
  | .bool b => b
  | .num n => n != 0
  | .str s => s != ""
  | .arr l => !l.isEmpty
  | .obj fs => !fs.isEmpty

mutual

/-- Python `repr` of a JSON value (quote-escaping inside strings is not
reproduced; no claim depends on the repr of a composite value). -/
def pyRepr : Json → String
  | .null => "None"
  | .bool true => "True"
  | .bool false => "False"
  | .num n => toString n
  | .str s => "\x27" ++ s ++ "\x27"
  | .arr l => "[" ++ pyReprList l ++ "]"
  | .obj fs => "\x7b" ++ pyReprFields fs ++ "\x7d"

def pyReprList : List Json → String
  | [] => ""
  | [j] => pyRepr j
  | j :: rest => pyRepr j ++ ", " ++ pyReprList rest

def pyReprFields : List (String × Json) → String
  | [] => ""
  | [kv] => "\x27" ++ kv.1 ++ "\x27: " ++ pyRepr kv.2
  | kv :: rest => "\x27" ++ kv.1 ++ "\x27: " ++ pyRepr kv.2 ++ ", " ++ pyReprFields rest

end

/-- Python `str(...)` of a JSON value. -/
def pyStr : Json → String
  | .str s => s
  | j => pyRepr j

/-! ### Naive datetimes -/

structure Datetime where
  year : Nat
  month : Nat
  day : Nat
  hour : Nat
  minute : Nat
  second : Nat
deriving DecidableEq, Repr

def pad2 (n : Nat) : String := if n < 10 then "0" ++ toString n else toString n

def pad4 (n : Nat) : String :=
  if n < 10 then "000" ++ toString n
  else if n < 100 then "00" ++ toString n
  else if n < 1000 then "0" ++ toString n
  else toString n

/-- Python `datetime.isoformat()` for a naive datetime with zero
microseconds. -/
def Datetime.isoformat (dt : Datetime) : String :=
  pad4 dt.year ++ "-" ++ pad2 dt.month ++ "-" ++ pad2 dt.day ++ "T" ++
    pad2 dt.hour ++ ":" ++ pad2 dt.minute ++ ":" ++ pad2 dt.second

/-! ### The event record (the dict literal built by both extractors) -/

structure Event where
  title : String
  start_dt : Option Datetime
  iso : Option String
  url : String
  tbc : Bool
deriving DecidableEq, Repr

/-! ### dedupe_events (source lines 48-57)

The key is `(e["title"].lower(), e.get("iso") or e.get("date_text") or "tbc")`.
Neither extractor ever sets a `date_text` field, so that lookup is always
`None`; a falsy `iso` (absent or the empty string) therefore yields the
literal key `"tbc"`.  Non-string start values are stored through `str()`
at extraction time (they behave identically downstream). -/

def keyOf (e : Event) : String × String :=
  (strLower e.title,
    match e.iso with
    | some s => if s == "" then "tbc" else s
    | none => "tbc")

def dedupeGo (seen : List (String × String)) : List Event → List Event
  | [] => []
  | e :: rest =>
    if keyOf e ∈ seen then dedupeGo seen rest
    else e :: dedupeGo (keyOf e :: seen) rest

def dedupe_events (events : List Event) : List Event := dedupeGo [] events

/-! ### UTF-8 encoding (Python `str.encode()`) -/

def utf8Char (c : Char) : List Nat :=
  let n := c.toNat
  if n < 128 then [n]
  else if n < 2048 then [192 + n / 64, 128 + n % 64]
  else if n < 65536 then [224 + n / 4096, 128 + n / 64 % 64, 128 + n % 64]
  else [240 + n / 262144, 128 + n / 4096 % 64, 128 + n / 64 % 64, 128 + n % 64]

def utf8Bytes (s : String) : List Nat :=
  s.data.foldr (fun c acc => utf8Char c ++ acc) []

/-! ### SHA-1 (`hashlib.sha1`, FIPS 180-1), words as Nat reduced mod 2^32 -/

def m32 : Nat := 4294967296

def rotl (k x : Nat) : Nat := ((x <<< k) ||| (x >>> (32 - k))) % m32

def sha1F (i b c d : Nat) : Nat :=
  if i < 20 then (b &&& c) ||| ((b ^^^ 4294967295) &&& d)
  else if i < 40 then b ^^^ c ^^^ d
  else if i < 60 then (b &&& c) ||| (b &&& d) ||| (c &&& d)
  else b ^^^ c ^^^ d

def sha1K (i : Nat) : Nat :=
  if i < 20 then 1518500249
  else if i < 40 then 1859775393
  else if i < 60 then 2400959708
  else 3395469782

def sha1Pad (msg : List Nat) : List Nat :=
  let ml := msg.length * 8
  let z := (56 - (msg.length + 1) % 64 + 64) % 64
  msg ++ [128] ++ List.replicate z 0 ++
    (List.range 8).map (fun i => ml >>> ((7 - i) * 8) &&& 255)

/-- Big-endian 32-bit words of a byte list (length a multiple of 4). -/
def wordsOf4 : List Nat → List Nat
  | b0 :: b1 :: b2 :: b3 :: rest => (((b0 * 256 + b1) * 256 + b2) * 256 + b3) :: wordsOf4 rest
  | _ => []

def groupStep (st : List (List Nat) × List Nat) (w : Nat) : List (List Nat) × List Nat :=
  let cur := st.2 ++ [w]
  if cur.length == 16 then (st.1 ++ [cur], []) else (st.1, cur)

def blocks16 (ws : List Nat) : List (List Nat) := (ws.foldl groupStep ([], [])).1

def sha1Sched (w16 : List Nat) : List Nat :=
  (List.range 64).foldl
    (fun w _ =>
      let n := w.length
      w ++ [rotl 1 (w.getD (n - 3) 0 ^^^ w.getD (n - 8) 0 ^^^ w.getD (n - 14) 0 ^^^ w.getD (n - 16) 0)])
    w16

def sha1Round (w : List Nat) (st : Nat × Nat × Nat × Nat × Nat) (i : Nat) :
    Nat × Nat × Nat × Nat × Nat :=
  let a := st.1
  let b := st.2.1
  let c := st.2.2.1
  let d := st.2.2.2.1
  let e := st.2.2.2.2
  ((rotl 5 a + sha1F i b c d + e + sha1K i + w.getD i 0) % m32, a, rotl 30 b, c, d)

def sha1Compress (h : Nat × Nat × Nat × Nat × Nat) (blk : List Nat) :
    Nat × Nat × Nat × Nat × Nat :=
  let w := sha1Sched blk
  let f := (List.range 80).foldl (sha1Round w) h
  ((h.1 + f.1) % m32, (h.2.1 + f.2.1) % m32, (h.2.2.1 + f.2.2.1) % m32,
    (h.2.2.2.1 + f.2.2.2.1) % m32, (h.2.2.2.2 + f.2.2.2.2) % m32)

def hexDig (n : Nat) : Char := "0123456789abcdef".data.getD n '0'

def toHex8 (n : Nat) : String :=
  String.mk ((List.range 8).map (fun i => hexDig (n >>> ((7 - i) * 4) &&& 15)))

def sha1Hex (msg : List Nat) : String :=
  let hs := (blocks16 (wordsOf4 (sha1Pad msg))).foldl sha1Compress
    (1732584193, 4023233417, 2562383102, 271733878, 3285377520)
  toHex8 hs.1 ++ toHex8 hs.2.1 ++ toHex8 hs.2.2.1 ++ toHex8 hs.2.2.2.1 ++ toHex8 hs.2.2.2.2

/-! ### Proleptic Gregorian calendar arithmetic (Python `datetime` ops) -/

def daysFromCivil (y m d : Int) : Int :=
  let y2 : Int := if m ≤ 2 then y - 1 else y
  let era : Int := (if 0 ≤ y2 then y2 else y2 - 399) / 400
  let yoe : Int := y2 - era * 400
  let mp : Int := if 2 < m then m - 3 else m + 9
  let doy : Int := (153 * mp + 2) / 5 + d - 1
  let doe : Int := yoe * 365 + yoe / 4 - yoe / 100 + doy
  era * 146097 + doe - 719468

def civilFromDays (z0 : Int) : Int × Int × Int :=
  let z := z0 + 719468
  let era : Int := (if 0 ≤ z then z else z - 146096) / 146097
  let doe : Int := z - era * 146097
  let yoe : Int := (doe - doe / 1460 + doe / 36524 - doe / 146096) / 365
  let y : Int := yoe + era * 400
  let doy : Int := doe - (365 * yoe + yoe / 4 - yoe / 100)
  let mp : Int := (5 * doy + 2) / 153
  let d : Int := doy - (153 * mp + 2) / 5 + 1
  let m : Int := if mp < 10 then mp + 3 else mp - 9
  (if m ≤ 2 then y + 1 else y, m, d)

def secondsFromCivil (dt : Datetime) : Int :=
  daysFromCivil dt.year dt.month dt.day * 86400 +
    dt.hour * 3600 + dt.minute * 60 + dt.second

def civilFromSeconds (t : Int) : Datetime :=
  let days := t.fdiv 86400
  let rem := (t - days * 86400).toNat
  let ymd := civilFromDays days
  ⟨ymd.1.toNat, ymd.2.1.toNat, ymd.2.2.toNat, rem / 3600, rem / 60 % 60, rem % 60⟩

def minSec : Int := secondsFromCivil ⟨1, 1, 1, 0, 0, 0⟩

def maxSec : Int := secondsFromCivil ⟨9999, 12, 31, 23, 59, 59⟩

def isLeap (y : Nat) : Bool := y % 4 == 0 && (y % 100 != 0 || y % 400 == 0)

def daysInMonth (y m : Nat) : Nat :=
  if m == 2 then (if isLeap y then 29 else 28)
  else if m == 4 || m == 6 || m == 9 || m == 11 then 30
  else 31

/-- Python `dt + timedelta(seconds=s)`.  Past the year-9999 bound Python
raises OverflowError; no claim exercises that bound through this helper,
which stays total. -/
def addSeconds (dt : Datetime) (s : Int) : Datetime :=
  civilFromSeconds (secondsFromCivil dt + s)

/-! ### ics_escape (source lines 123-124): four chained single-character
replacements, leftmost first, replacements not rescanned -/

def pyReplaceChar (pat : Char) (rep : List Char) (l : List Char) : List Char :=
  l.foldr (fun c acc => (if c == pat then rep else [c]) ++ acc) []

def ics_escape (s : String) : String :=
  String.mk (pyReplaceChar ';' ['\\', ';']
    (pyReplaceChar ',' ['\\', ',']
      (pyReplaceChar '\n' ['\\', 'n']
        (pyReplaceChar '\\' ['\\', '\\'] s.data))))

/-! ### vevent (source lines 126-146); `today` models `datetime.utcnow()` -/

def nl : String := "\n"

def isoOrTBC : Option Datetime → String
  | some dt => dt.isoformat
  | none => "TBC"

def uidOf (title : String) (start_dt : Option Datetime) : String :=
  sha1Hex (utf8Bytes (title ++ "|" ++ isoOrTBC start_dt ++ "|wembley")) ++ "@wembley-auto"

def dateStamp (dt : Datetime) : String := pad4 dt.year ++ pad2 dt.month ++ pad2 dt.day

def dtStamp (dt : Datetime) : String :=
  dateStamp dt ++ "T" ++ pad2 dt.hour ++ pad2 dt.minute ++ pad2 dt.second

def veventLines (title : String) (start_dt : Option Datetime) (url : String)
    (tbc : Bool) (today : Datetime) : List String :=
  ["BEGIN:VEVENT", "UID:" ++ uidOf title start_dt, "SUMMARY:" ++ ics_escape title] ++
  (match start_dt with
   | some dt =>
     ["DTSTART;TZID=" ++ TZ ++ ":" ++ dtStamp dt,
      "DTEND;TZID=" ++ TZ ++ ":" ++ dtStamp (addSeconds dt 7200)]
   | none =>
     ["DTSTART;VALUE=DATE:" ++ dateStamp today,
      "DTEND;VALUE=DATE:" ++ dateStamp (addSeconds today 86400),
      "CATEGORIES:TBC"]) ++
  ["URL:" ++ url] ++
  (if tbc then ["DESCRIPTION:Time TBC—check event page for updates."] else []) ++
  ["END:VEVENT"]

def joinWith (sep : String) : List String → String
  | [] => ""
  | [x] => x
  | x :: rest => x ++ sep ++ joinWith sep rest

def vevent (title : String) (start_dt : Option Datetime) (url : String)
    (tbc : Bool) (today : Datetime) : String :=
  joinWith nl (veventLines title start_dt url tbc today)

/-! ### build_calendar (source lines 148-163) -/

def dtEnc (dt : Datetime) : Nat :=
  (((((dt.year * 13 + dt.month) * 32 + dt.day) * 24 + dt.hour) * 60 + dt.minute) * 60 +
    dt.second) * 1000000

/-- The comparison key `e["start_dt"] or datetime.max`: a mixed-radix
encoding realising the lexicographic order of valid datetimes; the final
factor carries microseconds, since `datetime.max` has microsecond 999999
and so sorts strictly after every parsed (microsecond-0) datetime. -/
def sortKey (e : Event) : Nat :=
  match e.start_dt with
  | some dt => dtEnc dt
  | none => dtEnc ⟨9999, 12, 31, 23, 59, 59⟩ + 999999

def insertSorted (e : Event) : List Event → List Event
  | [] => [e]
  | b :: l => if sortKey e ≤ sortKey b then e :: b :: l else b :: insertSorted e l

/-- Stable ascending sort by `sortKey`, modelling `events.sort(key=...)`
(Timsort is stable; so is this insertion sort, in the same direction:
an earlier element precedes equal-keyed later ones). -/
def sortEvents : List Event → List Event
  | [] => []
  | e :: l => insertSorted e (sortEvents l)

def headerLines : List String :=
  ["BEGIN:VCALENDAR", "VERSION:2.0", "PRODID:-//Wembley Auto Feed//EN",
   "X-WR-CALNAME:" ++ ics_escape CAL_NAME, "CALSCALE:GREGORIAN",
   "X-WR-TIMEZONE:" ++ TZ, "METHOD:PUBLISH"]

def build_calendar (events : List Event) (today : Datetime) : String :=
  let evs := sortEvents (dedupe_events events)
  joinWith nl
    (headerLines ++ evs.map (fun e => vevent e.title e.start_dt e.url e.tbc today) ++
      ["END:VCALENDAR"])

/-! ### strptime (used by `coerce_datetime`, source lines 22-46)

CPython compiles each format to a regex (IGNORECASE, anchored at the
start, whole string must be consumed).  The numeric directives are
alternations preferring two digits; a format-string space matches a
whitespace run; `%b`/`%B` match the C-locale month names
case-insensitively; `%z` matches `Z` case-sensitively or a signed
`HH[:]MM[[:]SS]` offset with consistent colon use (fractional offset
seconds are not modelled).  Each parser consumes a prefix of the
character list. -/

def Pc (α : Type) : Type := List Char → Option (α × List Char)

instance : Monad Pc where
  pure a := fun l => some (a, l)
  bind q f := fun l =>
    match q l with
    | none => none
    | some (a, r) => f a r

/-- Numeric field of one or two digits: the two-digit regex alternative
(tried first) when `ok2` accepts the digits, else one digit when `ok1`
accepts it. -/
def p21 (ok2 : Nat → Nat → Bool) (ok1 : Nat → Bool) : Pc Nat := fun l =>
  match l with
  | c1 :: c2 :: rest =>
    if isDigitCh c1 && isDigitCh c2 && ok2 (digitVal c1) (digitVal c2) then
      some (10 * digitVal c1 + digitVal c2, rest)
    else if isDigitCh c1 && ok1 (digitVal c1) then some (digitVal c1, c2 :: rest)
    else none
  | [c1] => if isDigitCh c1 && ok1 (digitVal c1) then some (digitVal c1, []) else none
  | [] => none

/-- The `%Y` directive: exactly four digits. -/
def pY : Pc Nat := fun l =>
  match l with
  | c1 :: c2 :: c3 :: c4 :: rest =>
    if isDigitCh c1 && isDigitCh c2 && isDigitCh c3 && isDigitCh c4 then
      some (digitVal c1 * 1000 + digitVal c2 * 100 + digitVal c3 * 10 + digitVal c4, rest)
    else none
  | _ => none

def pMonth : Pc Nat := p21 (fun a b => (a == 1 && b ≤ 2) || (a == 0 && 1 ≤ b)) (fun a => 1 ≤ a)

def pDay : Pc Nat :=
  p21 (fun a b => (a == 3 && b ≤ 1) || a == 1 || a == 2 || (a == 0 && 1 ≤ b)) (fun a => 1 ≤ a)

def pHour : Pc Nat := p21 (fun a b => (a == 2 && b ≤ 3) || a ≤ 1) (fun _ => true)

def pMin : Pc Nat := p21 (fun a _ => a ≤ 5) (fun _ => true)

def pSec : Pc Nat := p21 (fun a b => (a == 6 && b ≤ 1) || a ≤ 5) (fun _ => true)

/-- A literal format character, matched case-insensitively. -/
def pLit (ch : Char) : Pc Unit := fun l =>
  match l with
  | c :: rest => if lowCh c == lowCh ch then some ((), rest) else none
  | [] => none

/-- A whitespace run (`\s+`). -/
def pWs : Pc Unit := fun l =>
  if (l.takeWhile isWsCh).isEmpty then none else some ((), l.dropWhile isWsCh)

def monthAbbrs : List (Nat × String) :=
  [(1, "jan"), (2, "feb"), (3, "mar"), (4, "apr"), (5, "may"), (6, "jun"),
   (7, "jul"), (8, "aug"), (9, "sep"), (10, "oct"), (11, "nov"), (12, "dec")]

def monthFulls : List (Nat × String) :=
  [(1, "january"), (2, "february"), (3, "march"), (4, "april"), (5, "may"),
   (6, "june"), (7, "july"), (8, "august"), (9, "september"), (10, "october"),
   (11, "november"), (12, "december")]

def stripName : List Char → List Char → Option (List Char)
  | [], l => some l
  | p :: ps, c :: cs => if lowCh c == p then stripName ps cs else none
  | _ :: _, [] => none

/-- The `%b`/`%B` directives: first month name that is a prefix
(case-insensitively); the C-locale names have no prefix relations, so
order does not matter. -/
def pName (names : List (Nat × String)) : Pc Nat := fun l =>
  names.findSome? (fun mn =>
    match stripName mn.2.data l with
    | some r => some (mn.1, r)
    | none => none)

def pSign : Pc Int := fun l =>
  match l with
  | '+' :: rest => some (1, rest)
  | '-' :: rest => some (-1, rest)
  | _ => none

def pColonOpt : Pc Bool := fun l =>
  match l with
  | ':' :: rest => some (true, rest)
  | _ => some (false, l)

def pP2 : Pc Nat := fun l =>
  match l with
  | c1 :: c2 :: rest =>
    if isDigitCh c1 && isDigitCh c2 then some (10 * digitVal c1 + digitVal c2, rest) else none
  | _ => none

/-- Two digits constrained to 00-59 (the `[0-5]\d` piece). -/
def pP25 : Pc Nat := fun l =>
  match pP2 l with
  | some (v, r) => if v ≤ 59 then some (v, r) else none
  | none => none

def pZSecsBody : Pc (Bool × Nat) := do
  let c2 ← pColonOpt
  let ss ← pP25
  pure (c2, ss)

/-- Optional offset-seconds group; when present, its colon use must agree
with the minutes separator (CPython raises on inconsistent use, failing
the format). -/
def pZSecs (colon1 : Bool) : Pc Int := fun l =>
  match pZSecsBody l with
  | some (p, r) => if p.1 == colon1 then some ((p.2 : Int), r) else none
  | none => some (0, l)

def pZBody : Pc Int := do
  let sg ← pSign
  let hh ← pP2
  let c1 ← pColonOpt
  let mm ← pP25
  let ss ← pZSecs c1
  pure (sg * ((hh : Int) * 3600 + (mm : Int) * 60 + ss))

/-- The `%z` directive, yielding the offset in seconds. -/
def pZ : Pc Int := fun l =>
  match l with
  | 'Z' :: rest => some (0, rest)
  | _ => pZBody l

/-- The fields recovered by one strptime call. -/
structure Strp where
  y : Nat
  m : Nat
  d : Nat
  hh : Nat
  mi : Nat
  ss : Nat
  off : Option Int
deriving DecidableEq, Repr

def fIsoSecZ : Pc Strp := do
  let y ← pY
  let _ ← pLit '-'
  let m ← pMonth
  let _ ← pLit '-'
  let d ← pDay
  let _ ← pLit 'T'
  let hh ← pHour
  let _ ← pLit ':'
  let mi ← pMin
  let _ ← pLit ':'
  let ss ← pSec
  let z ← pZ
  pure ⟨y, m, d, hh, mi, ss, some z⟩

def fIsoSec : Pc Strp := do
  let y ← pY
  let _ ← pLit '-'
  let m ← pMonth
  let _ ← pLit '-'
  let d ← pDay
  let _ ← pLit 'T'
  let hh ← pHour
  let _ ← pLit ':'
  let mi ← pMin
  let _ ← pLit ':'
  let ss ← pSec
  pure ⟨y, m, d, hh, mi, ss, none⟩

def fIsoMin : Pc Strp := do
  let y ← pY
  let _ ← pLit '-'
  let m ← pMonth
  let _ ← pLit '-'
  let d ← pDay
  let _ ← pLit 'T'
  let hh ← pHour
  let _ ← pLit ':'
  let mi ← pMin
  pure ⟨y, m, d, hh, mi, 0, none⟩

def fYmdHM : Pc Strp := do
  let y ← pY
  let _ ← pLit '-'
  let m ← pMonth
  let _ ← pLit '-'
  let d ← pDay
  let _ ← pWs
  let hh ← pHour
  let _ ← pLit ':'
  let mi ← pMin
  pure ⟨y, m, d, hh, mi, 0, none⟩

def fDbYHM : Pc Strp := do
  let d ← pDay
  let _ ← pWs
  let m ← pName monthAbbrs
  let _ ← pWs
  let y ← pY
  let _ ← pWs
  let hh ← pHour
  let _ ← pLit ':'
  let mi ← pMin
  pure ⟨y, m, d, hh, mi, 0, none⟩

def fDBYHM : Pc Strp := do
  let d ← pDay
  let _ ← pWs
  let m ← pName monthFulls
  let _ ← pWs
  let y ← pY
  let _ ← pWs
  let hh ← pHour
  let _ ← pLit ':'
  let mi ← pMin
  pure ⟨y, m, d, hh, mi, 0, none⟩

def fDbY : Pc Strp := do
  let d ← pDay
  let _ ← pWs
  let m ← pName monthAbbrs
  let _ ← pWs
  let y ← pY
  pure ⟨y, m, d, 0, 0, 0, none⟩

def fDBY : Pc Strp := do
  let d ← pDay
  let _ ← pWs
  let m ← pName monthFulls
  let _ ← pWs
  let y ← pY
  pure ⟨y, m, d, 0, 0, 0, none⟩

def fYmd : Pc Strp := do
  let y ← pY
  let _ ← pLit '-'
  let m ← pMonth
  let _ ← pLit '-'
  let d ← pDay
  pure ⟨y, m, d, 0, 0, 0, none⟩

/-- The `fmts` list of source lines 28-32, in order. -/
inductive Fmt where
  | isoSecZ | isoSec | isoMin | ymdHM | dbYHM | dBYHM | dbY | dBY | ymd
deriving DecidableEq, Repr

def fmtPc : Fmt → Pc Strp
  | .isoSecZ => fIsoSecZ
  | .isoSec => fIsoSec
  | .isoMin => fIsoMin
  | .ymdHM => fYmdHM
  | .dbYHM => fDbYHM
  | .dBYHM => fDBYHM
  | .dbY => fDbY
  | .dBY => fDBY
  | .ymd => fYmd

/-- Membership of `f` in `("%d %b %Y", "%d %B %Y", "%Y-%m-%d")` (line 39). -/
def fmtIsBare : Fmt → Bool
  | .dbY => true
  | .dBY => true
  | .ymd => true
  | _ => false

def fmts : List Fmt :=
  [.isoSecZ, .isoSec, .isoMin, .ymdHM, .dbYHM, .dBYHM, .dbY, .dBY, .ymd]

def timeFmts : List Fmt := [.isoSecZ, .isoSec, .isoMin, .ymdHM, .dbYHM, .dBYHM]

def bareFmts : List Fmt := [.dbY, .dBY, .ymd]

/-- Anchored whole-string match (`unconverted data remains` otherwise). -/
def runFmt (q : Pc Strp) (l : List Char) : Option Strp :=
  match q l with
  | some (r, []) => some r
  | _ => none

/-- The `datetime(...)` constructor validation applied by strptime. -/
def strpValid (r : Strp) : Bool :=
  1 ≤ r.y && 1 ≤ r.m && r.m ≤ 12 && 1 ≤ r.d && r.d ≤ daysInMonth r.y r.m &&
    r.hh ≤ 23 && r.mi ≤ 59 && r.ss ≤ 59

def strpDt (r : Strp) : Datetime := ⟨r.y, r.m, r.d, r.hh, r.mi, r.ss⟩

/-- Model of `dt.astimezone(timezone.utc).replace(tzinfo=None)` for an
aware parse: `none` when Python raises (offset not strictly inside ±24h,
or the UTC instant outside years 1..9999). -/
def toUtcNaive (r : Strp) (off : Int) : Option Datetime :=
  if 86400 ≤ off.natAbs then none
  else
    let t := secondsFromCivil (strpDt r) - off
    if t < minSec || maxSec < t then none else some (civilFromSeconds t)

/-- One iteration of the format loop: parse, validate, and convert to UTC
when the format carries `%z`; `none` models the caught exception. -/
def tryFmt (f : Fmt) (s : String) : Option Datetime :=
  match runFmt (fmtPc f) s.data with
  | none => none
  | some r =>
    if strpValid r then
      match r.off with
      | some off => toUtcNaive r off
      | none => some (strpDt r)
    else none

/-! ### The TBC/TBA marker check (source line 44) -/

def headIsWord : List Char → Bool
  | c :: _ => isWordCh c
  | [] => false

def tbcAt : List Char → Bool
  | 't' :: 'b' :: 'c' :: rest => !headIsWord rest
  | 't' :: 'b' :: 'a' :: rest => !headIsWord rest
  | _ => false

def hasTbcGo (prevWord : Bool) : List Char → Bool
  | [] => false
  | c :: rest => (!prevWord && tbcAt (c :: rest)) || hasTbcGo (isWordCh c) rest

/-- The check `re.search(r"\b(TBC|TBA)\b", s, re.I)`, run on the
lowercased characters. -/
def hasTbcMarker (s : String) : Bool := hasTbcGo false (s.data.map lowCh)

/-! ### coerce_datetime (source lines 22-46) -/

/-- The format loop; `some r` models an early `return r` from inside the
loop (a bare-date format success returns `None`), `none` means the loop
fell through. -/
def coerceGo (s : String) : List Fmt → Option (Option Datetime)
  | [] => none
  | f :: rest =>
    match tryFmt f s with
    | some dt => some (if fmtIsBare f then none else some dt)
    | none => coerceGo s rest

def coerce_datetime (s0 : String) : Option Datetime :=
  let s := pyStrip s0
  match coerceGo s fmts with
  | some r => r
  | none => if hasTbcMarker s then none else none

/-! ### parse_jsonld_events (source lines 59-92)

The function receives the `application/ld+json` script blocks with
`json.loads` already applied (`none` = the block failed to parse, the
caught exception `continue`s).  The source rebinds `items` for every
parseable block, and the event-extraction loop sits after (not inside)
the block loop, so only the last parseable block's items are scanned;
with no parseable block at all, `items` is never assigned and the
extraction loop raises UnboundLocalError, modelled as a `none` result. -/

def kGraph : String := "@graph"

def kType : String := "@type"

def kName : String := "name"

def kUrl : String := "url"

def kStartDate : String := "startDate"

def kStartTime : String := "startTime"

def kStart : String := "start"

mutual

def jsize : Json → Nat
  | .null => 1
  | .bool _ => 1
  | .num _ => 1
  | .str _ => 1
  | .arr l => 1 + jsizeList l
  | .obj fs => 1 + jsizeFields fs

def jsizeList : List Json → Nat
  | [] => 0
  | j :: rest => jsize j + jsizeList rest

def jsizeFields : List (String × Json) → Nat
  | [] => 0
  | kv :: rest => jsize kv.2 + jsizeFields rest

end

/-- The `graph and isinstance(graph, list)` guard: a truthy (nonempty)
list value under `"@graph"` of a dict. -/
def graphOf (j : Json) : List Json :=
  match j with
  | .obj fs =>
    match jLookup kGraph fs with
    | some (.arr (g0 :: gs)) => g0 :: gs
    | _ => []
  | _ => []

def expandGo : Nat → List Json → List Json
  | 0, _ => []
  | _ + 1, [] => []
  | fuel + 1, x :: rest => x :: expandGo fuel (rest ++ graphOf x)

/-- The `for obj in items: items.extend(graph)` loop.  Python iterates by
index over the growing list, so appended `@graph` members are themselves
scanned and their graphs appended at the end; this queue formulation
reproduces that order.  Each processed item is strictly larger than the
`@graph` members it contributes, so the total size strictly bounds the
number of iterations and `jsizeList items` fuel always suffices. -/
def expandItems (items : List Json) : List Json := expandGo (jsizeList items) items

/-- The last block for which `json.loads` succeeded (malformed blocks
`continue`, parseable ones rebind `items`). -/
def lastParseable : List (Option Json) → Option Json
  | [] => none
  | b :: rest =>
    match lastParseable rest with
    | some j => some j
    | none => b

/-- `items = data if isinstance(data, list) else [data]`. -/
def itemsOf (data : Json) : List Json :=
  match data with
  | .arr l => l
  | _ => [data]

/-- `(isinstance(t, list) and "Event" in t) or t == "Event"`. -/
def isEventType (t : Option Json) : Bool :=
  match t with
  | some (.arr l) =>
    l.any (fun j =>
      match j with
      | .str s => s == "Event"
      | _ => false)
  | some (.str s) => s == "Event"
  | _ => false

def jGetD (it : Json) (k : String) : Json := (jGet it k).getD Json.null

/-- Python `a or b` on JSON values. -/
def jor (a b : Json) : Json := if jTruthy a then a else b

/-- `(it.get("name") or "").strip()`: a truthy non-string value has no
`.strip` and raises AttributeError (uncaught), hence `none`. -/
def nameOf (it : Json) : Option String :=
  let v := jGetD it kName
  if jTruthy v then
    match v with
    | .str s => some (pyStrip s)
    | _ => none
  else some ""

/-- `it.get("url") or EVENTS_URL`, the value rendered through `str()` at
extraction (the record's url is only ever formatted into text). -/
def urlOf (it : Json) : String :=
  let v := jGetD it kUrl
  if jTruthy v then pyStr v else EVENTS_URL

/-- `it.get("startDate") or it.get("startTime") or it.get("start")`. -/
def startValOf (it : Json) : Json :=
  jor (jGetD it kStartDate) (jor (jGetD it kStartTime) (jGetD it kStart))

/-- Model of `html.unescape` restricted to the basic named entities (the
replacement is not rescanned); titles in concrete claims use none. -/
def unescGo : List Char → List Char
  | '&' :: 'a' :: 'm' :: 'p' :: ';' :: rest => '&' :: unescGo rest
  | '&' :: 'l' :: 't' :: ';' :: rest => '<' :: unescGo rest
  | '&' :: 'g' :: 't' :: ';' :: rest => '>' :: unescGo rest
  | '&' :: 'q' :: 'u' :: 'o' :: 't' :: ';' :: rest => '"' :: unescGo rest
  | c :: rest => c :: unescGo rest
  | [] => []

def htmlUnescape (s : String) : String := String.mk (unescGo s.data)

/-- The `for it in items` extraction loop (lines 74-91); `none` = the
loop raises (a truthy non-string `name`). -/
def eventsOf : List Json → Option (List Event)
  | [] => some []
  | it :: rest =>
    match it with
    | .obj _ =>
      if isEventType (jGet it kType) then
        match nameOf it with
        | none => none
        | some name =>
          if name == "" then eventsOf rest
          else
            let sv := startValOf it
            let dt := if jTruthy sv then coerce_datetime (pyStr sv) else none
            match eventsOf rest with
            | none => none
            | some evs =>
              some (⟨htmlUnescape name, dt,
                if jTruthy sv then some (pyStr sv) else none,
                urlOf it, dt.isNone⟩ :: evs)
      else eventsOf rest
    | _ => eventsOf rest

def parse_jsonld_events (blocks : List (Option Json)) : Option (List Event) :=
  match lastParseable blocks with
  | none => none
  | some data => eventsOf (expandItems (itemsOf data))

/-! ### parse_html_cards (source lines 94-121)

A `Card` is one element of the `soup.select(...)` result: its own text,
its `href` attribute, and the combined text of its enclosing container. -/

structure Card where
  text : String
  href : Option String
  containerText : String
deriving DecidableEq, Repr

def siteOrigin : String := "https://www.wembleystadium.com"

def hHttp : String := "http"

def hSlash : String := "/"

/-- Line 105: absolute href kept, root-relative prefixed with the site
origin, anything else replaced by the listing URL. -/
def cardUrl (href : String) : String :=
  if pyStartsWith href hHttp then href
  else if pyStartsWith href hSlash then siteOrigin ++ href
  else EVENTS_URL

/-- One-or-more run of a character class (`\s+` / `\w+`). -/
def takeWhile1 (p : Char → Bool) (l : List Char) : Option (List Char × List Char) :=
  let t := l.takeWhile p
  if t.isEmpty then none else some (t, l.dropWhile p)

def exact4d : List Char → Option (List Char × List Char)
  | c1 :: c2 :: c3 :: c4 :: rest =>
    if isDigitCh c1 && isDigitCh c2 && isDigitCh c3 && isDigitCh c4 then
      some ([c1, c2, c3, c4], rest)
    else none
  | _ => none

/-- The optional `(?:\s+\d{1,2}:\d{2})?` time suffix (greedy hour). -/
def timeSuffix (l : List Char) : Option (List Char × List Char) :=
  match takeWhile1 isWsCh l with
  | none => none
  | some (w, r1) =>
    match r1 with
    | c1 :: c2 :: rest2 =>
      if isDigitCh c1 && isDigitCh c2 then
        match rest2 with
        | ':' :: c3 :: c4 :: rest3 =>
          if isDigitCh c3 && isDigitCh c4 then some (w ++ [c1, c2, ':', c3, c4], rest3)
          else none
        | _ => none
      else if isDigitCh c1 && c2 == ':' then
        match rest2 with
        | c3 :: c4 :: rest3 =>
          if isDigitCh c3 && isDigitCh c4 then some (w ++ [c1, c2, c3, c4], rest3)
          else none
        | _ => none
      else none
    | _ => none

/-- The part after the day digits: `\s+\w+\s+\d{4}(?:\s+\d{1,2}:\d{2})?`.
The `+` classes are disjoint from their successors, so maximal munch is
exact; the optional group is tried greedily. -/
def matchTail (l : List Char) : Option (List Char) :=
  match takeWhile1 isWsCh l with
  | none => none
  | some (w1, r1) =>
    match takeWhile1 isWordCh r1 with
    | none => none
    | some (wd, r2) =>
      match takeWhile1 isWsCh r2 with
      | none => none
      | some (w2, r3) =>
        match exact4d r3 with
        | none => none
        | some (yr, r4) =>
          match timeSuffix r4 with
          | some (ts, _) => some (w1 ++ wd ++ w2 ++ yr ++ ts)
          | none => some (w1 ++ wd ++ w2 ++ yr)

/-- Anchored attempt of the whole date pattern: greedy two-digit day
first, the regex's one-digit fallback after (it can never succeed when
two digits are present, since the next piece requires whitespace). -/
def matchAt (l : List Char) : Option (List Char) :=
  match l with
  | c1 :: c2 :: rest =>
    if isDigitCh c1 && isDigitCh c2 then
      match matchTail rest with
      | some t => some (c1 :: c2 :: t)
      | none =>
        match matchTail (c2 :: rest) with
        | some t => some (c1 :: t)
        | none => none
    else if isDigitCh c1 then
      match matchTail (c2 :: rest) with
      | some t => some (c1 :: t)
      | none => none
    else none
  | _ => none

/-- `re.search(r"(\d{1,2}\s+\w+\s+\d{4}(?:\s+\d{1,2}:\d{2})?)", txt)`:
leftmost match, group 1 is the whole match. -/
def reSearchDate : List Char → Option String
  | [] => none
  | c :: rest =>
    match matchAt (c :: rest) with
    | some m => some (String.mk m)
    | none => reSearchDate rest

def parse_html_cards : List Card → List Event
  | [] => []
  | a :: rest =>
    let title := a.text
    let href := a.href.getD ""
    let url := cardUrl href
    let date_str := (reSearchDate a.containerText.data).getD ""
    let dt := if date_str == "" then none else coerce_datetime date_str
    (if title == "" then [] else [⟨title, dt, some date_str, url, dt.isNone⟩]) ++
      parse_html_cards rest

/-! ### The extraction portion of main (source lines 169-171) -/

def pipelineEvents (blocks : List (Option Json)) (cards : List Card) :
    Option (List Event) :=
  match parse_jsonld_events blocks with
  | none => none
  | some evs => some (if evs.isEmpty then parse_html_cards cards else evs)

/-- An absolute, schemed address: a nonempty alphabetic scheme followed
by a colon (spec section 3, "url is always an absolute, schemed
address"). -/
def hasUrlScheme (u : String) : Bool :=
  let pre := u.data.takeWhile (fun c => 97 ≤ (lowCh c).toNat && (lowCh c).toNat ≤ 122)
  !pre.isEmpty && (u.data.drop pre.length).head? == some ':'

/-! ### Verification-side definitions (not from the source)

A successful strptime match of any accepted format never contains a
lowercase `t` immediately followed by `b`, while a word-bounded TBC/TBA
marker always does; this is the bridge behind the claim that a marked
string coerces to "unknown". -/

def headIsB : List Char → Bool
  | [] => false
  | c :: _ => c == 'b'

/-- Whether the list contains a `'t'` immediately followed by `'b'`. -/
def ctb : List Char → Bool
  | [] => false
  | c :: l => (c == 't' && headIsB l) || ctb l

def lastIsT : List Char → Bool
  | [] => false
  | [c] => c == 't'
  | _ :: rest => lastIsT rest

def lowmap (l : List Char) : List Char := l.map lowCh

/-- The consumed-prefix invariant: lowercased, the prefix has no `tb`
pair and does not start with `b`. -/
def PS (p : List Char) : Prop :=
  ctb (lowmap p) = false ∧ headIsB (lowmap p) = false

/-- A parser all of whose successful runs consume a `PS` prefix. -/
def PSP {α : Type} (q : Pc α) : Prop :=
  ∀ l a r, q l = some (a, r) → ∃ p, l = p ++ r ∧ PS p

/-! ## Theorems -/

/-! ### Deduplication lemmas -/

theorem dedupeGo_key_not_seen (l : List Event) :
    ∀ seen k, k ∈ (dedupeGo seen l).map keyOf → k ∉ seen := by
  induction l with
  | nil => intro seen k hk; simp [dedupeGo] at hk
  | cons e rest ih =>
    intro seen k hk
    by_cases h : keyOf e ∈ seen
    · rw [dedupeGo, if_pos h] at hk
      exact ih seen k hk
    · rw [dedupeGo, if_neg h] at hk
      simp only [List.map_cons, List.mem_cons] at hk
      rcases hk with rfl | hk
      · exact h
      · intro hks
        exact ih (keyOf e :: seen) k hk (List.mem_cons_of_mem _ hks)

theorem dedupeGo_keys_nodup (l : List Event) :
    ∀ seen, ((dedupeGo seen l).map keyOf).Nodup := by
  induction l with
  | nil => intro seen; simp [dedupeGo]
  | cons e rest ih =>
    intro seen
    by_cases h : keyOf e ∈ seen
    · rw [dedupeGo, if_pos h]; exact ih seen
    · rw [dedupeGo, if_neg h]
      simp only [List.map_cons, List.nodup_cons]
      refine ⟨fun hmem => ?_, ih _⟩
      exact dedupeGo_key_not_seen rest (keyOf e :: seen) (keyOf e) hmem (List.mem_cons_self _ _)

theorem dedupeGo_all_new (l : List Event) :
    ∀ seen, (l.map keyOf).Nodup → (∀ k ∈ l.map keyOf, k ∉ seen) →
      dedupeGo seen l = l := by
  induction l with
  | nil => intro seen _ _; rfl
  | cons e rest ih =>
    intro seen hnd hnew
    have he : keyOf e ∉ seen := hnew (keyOf e) (by simp)
    rw [dedupeGo, if_neg he]
    congr 1
    apply ih
    · exact (List.nodup_cons.mp (by simpa using hnd)).2
    · intro k hk
      simp only [List.mem_cons]
      rintro (rfl | hks)
      · exact (List.nodup_cons.mp (by simpa using hnd)).1 hk
      · exact hnew k (List.mem_cons_of_mem _ hk) hks

theorem dedupe_events_of_nodup (l : List Event) (h : (l.map keyOf).Nodup) :
    dedupe_events l = l :=
  dedupeGo_all_new l [] h (fun k _ hk => by simp at hk)

/-- C8: deduplication is idempotent — applying `dedupe_events` to its own
output returns that output unchanged, for every record list. -/
theorem dedupe_events_idempotent (l : List Event) :
    dedupe_events (dedupe_events l) = dedupe_events l :=
  dedupe_events_of_nodup (dedupe_events l) (dedupeGo_keys_nodup l [])

theorem dedupeGo_drop_dup (e2 : Event) (B : List Event) :
    ∀ (A : List Event) seen, (keyOf e2 ∈ seen ∨ ∃ e1 ∈ A, keyOf e1 = keyOf e2) →
      dedupeGo seen (A ++ e2 :: B) = dedupeGo seen (A ++ B) := by
  intro A
  induction A with
  | nil =>
    intro seen h
    rcases h with h | ⟨e1, h1, _⟩
    · simp only [List.nil_append]
      rw [dedupeGo, if_pos h]
    · simp at h1
  | cons a A ih =>
    intro seen h
    simp only [List.cons_append]
    by_cases ha : keyOf a ∈ seen
    · rw [dedupeGo, if_pos ha, dedupeGo, if_pos ha]
      apply ih
      rcases h with h | ⟨e1, h1, hk⟩
      · exact Or.inl h
      · rcases List.mem_cons.mp h1 with rfl | h1
        · exact Or.inl (hk ▸ ha)
        · exact Or.inr ⟨e1, h1, hk⟩
    · rw [dedupeGo, if_neg ha, dedupeGo, if_neg ha]
      congr 1
      apply ih
      rcases h with h | ⟨e1, h1, hk⟩
      · exact Or.inl (List.mem_cons_of_mem _ h)
      · rcases List.mem_cons.mp h1 with rfl | h1
        · exact Or.inl (by rw [← hk]; exact List.mem_cons_self _ _)
        · exact Or.inr ⟨e1, h1, hk⟩

/-- C10: two records with case-insensitively equal titles whose raw date
tokens are both absent or empty share the identity key
`(lowercased title, "tbc")`, so the deduplicator drops the later one —
whatever their urls or start values — keeping the first occurrence. -/
theorem undated_records_collapse (A B : List Event) (e1 e2 : Event)
    (h1 : e1 ∈ A) (ht : strLower e1.title = strLower e2.title)
    (hi1 : e1.iso = none ∨ e1.iso = some "")
    (hi2 : e2.iso = none ∨ e2.iso = some "") :
    keyOf e2 = (strLower e2.title, "tbc") ∧
      dedupe_events (A ++ e2 :: B) = dedupe_events (A ++ B) := by
  have k2 : keyOf e2 = (strLower e2.title, "tbc") := by
    rcases hi2 with h | h <;> simp [keyOf, h]
  have k1 : keyOf e1 = (strLower e1.title, "tbc") := by
    rcases hi1 with h | h <;> simp [keyOf, h]
  refine ⟨k2, ?_⟩
  unfold dedupe_events
  apply dedupeGo_drop_dup
  exact Or.inr ⟨e1, h1, by rw [k1, k2, ht]⟩

/-- Witness for C10 at two concrete records differing in url and start. -/
theorem undated_records_collapse_witness :
    dedupe_events [⟨"Concert", none, none, "https://a/1", true⟩,
        ⟨"CONCERT", some ⟨2025, 1, 1, 0, 0, 0⟩, some (""), "https://b/2", false⟩] =
      dedupe_events [⟨"Concert", none, none, "https://a/1", true⟩] :=
  (undated_records_collapse [⟨"Concert", none, none, "https://a/1", true⟩] []
    ⟨"Concert", none, none, "https://a/1", true⟩
    ⟨"CONCERT", some ⟨2025, 1, 1, 0, 0, 0⟩, some (""), "https://b/2", false⟩
    (List.mem_singleton.mpr rfl) (by decide) (Or.inl rfl) (Or.inr rfl)).2

/-! ### Sorting lemmas -/

theorem insertSorted_perm (e : Event) (l : List Event) :
    List.Perm (insertSorted e l) (e :: l) := by
  induction l with
  | nil => exact List.Perm.refl _
  | cons b l ih =>
    rw [insertSorted]
    split
    · exact List.Perm.refl _
    · exact (ih.cons b).trans (List.Perm.swap e b l)

theorem sortEvents_perm (l : List Event) : List.Perm (sortEvents l) l := by
  induction l with
  | nil => exact List.Perm.refl _
  | cons e l ih => exact (insertSorted_perm e (sortEvents l)).trans (ih.cons e)

theorem insertSorted_pairwise (e : Event) (l : List Event)
    (h : l.Pairwise (fun a b => sortKey a ≤ sortKey b)) :
    (insertSorted e l).Pairwise (fun a b => sortKey a ≤ sortKey b) := by
  induction l with
  | nil => simp [insertSorted]
  | cons b l ih =>
    rcases List.pairwise_cons.mp h with ⟨hb, hl⟩
    rw [insertSorted]
    split
    · rename_i hle
      refine List.pairwise_cons.mpr ⟨?_, h⟩
      intro x hx
      rcases List.mem_cons.mp hx with rfl | hx
      · exact hle
      · exact le_trans hle (hb x hx)
    · rename_i hgt
      refine List.pairwise_cons.mpr ⟨?_, ih hl⟩
      intro x hx
      rcases List.mem_cons.mp ((insertSorted_perm e l).mem_iff.mp hx) with rfl | hx
      · exact le_of_not_le hgt
      · exact hb x hx

theorem sortEvents_pairwise (l : List Event) :
    (sortEvents l).Pairwise (fun a b => sortKey a ≤ sortKey b) := by
  induction l with
  | nil => simp [sortEvents]
  | cons e l ih => exact insertSorted_pairwise e (sortEvents l) ih

theorem sorted_nodup_perm_eq (l1 : List Event) :
    ∀ l2, List.Perm l1 l2 →
      l1.Pairwise (fun a b => sortKey a ≤ sortKey b) →
      l2.Pairwise (fun a b => sortKey a ≤ sortKey b) →
      (l1.map sortKey).Nodup → l1 = l2 := by
  induction l1 with
  | nil =>
    intro l2 hp _ _ _
    exact (List.Perm.eq_nil hp.symm).symm
  | cons a t1 ih =>
    intro l2 hp hs1 hs2 hnd
    cases l2 with
    | nil => exact absurd (List.Perm.eq_nil hp) (by simp)
    | cons b t2 =>
      by_cases hab : a = b
      · subst hab
        have ht : List.Perm t1 t2 := hp.cons_inv
        rw [ih t2 ht (List.pairwise_cons.mp hs1).2 (List.pairwise_cons.mp hs2).2
          (List.nodup_cons.mp (by simpa using hnd)).2]
      · exfalso
        have ha2 : a ∈ t2 := by
          rcases List.mem_cons.mp (hp.subset (List.mem_cons_self a t1)) with h | h
          · exact absurd h hab
          · exact h
        have hb1 : b ∈ t1 := by
          rcases List.mem_cons.mp (hp.symm.subset (List.mem_cons_self b t2)) with h | h
          · exact absurd h.symm hab
          · exact h
        have h1 : sortKey a ≤ sortKey b := (List.pairwise_cons.mp hs1).1 b hb1
        have h2 : sortKey b ≤ sortKey a := (List.pairwise_cons.mp hs2).1 a ha2
        have hmem : sortKey a ∉ t1.map sortKey :=
          (List.nodup_cons.mp (by simpa using hnd)).1
        exact hmem (le_antisymm h1 h2 ▸ List.mem_map_of_mem sortKey hb1)

/-- C4 (amended): the document is a pure function of the record multiset
provided no two records share a deduplication key and no two share a
start sort key; ties in either key are resolved by input order (stable
filter, stable sort), so the unrestricted claim fails. -/
theorem build_calendar_perm_invariant (l1 l2 : List Event) (today : Datetime)
    (hperm : List.Perm l1 l2) (hkeys : (l1.map keyOf).Nodup)
    (hsort : (l1.map sortKey).Nodup) :
    build_calendar l1 today = build_calendar l2 today := by
  have hk2 : (l2.map keyOf).Nodup := ((hperm.map keyOf).nodup_iff).mp hkeys
  have d1 : dedupe_events l1 = l1 := dedupe_events_of_nodup l1 hkeys
  have d2 : dedupe_events l2 = l2 := dedupe_events_of_nodup l2 hk2
  have hsorted : sortEvents l1 = sortEvents l2 := by
    apply sorted_nodup_perm_eq
    · exact (sortEvents_perm l1).trans (hperm.trans (sortEvents_perm l2).symm)
    · exact sortEvents_pairwise l1
    · exact sortEvents_pairwise l2
    · exact (((sortEvents_perm l1).map sortKey).nodup_iff).mpr hsort
  unfold build_calendar
  rw [d1, d2, hsorted]

/-- Witness for the amended C4: two records with distinct starts and
distinct identity keys produce the same document in either order. -/
theorem build_calendar_perm_invariant_witness :
    build_calendar
        [⟨"a", some ⟨2025, 6, 1, 15, 0, 0⟩, some ("2025-06-01T15:00:00"), "https://a", false⟩,
         ⟨"b", none, none, "https://b", true⟩] ⟨2025, 1, 1, 0, 0, 0⟩ =
      build_calendar
        [⟨"b", none, none, "https://b", true⟩,
         ⟨"a", some ⟨2025, 6, 1, 15, 0, 0⟩, some ("2025-06-01T15:00:00"), "https://a", false⟩]
        ⟨2025, 1, 1, 0, 0, 0⟩ :=
  build_calendar_perm_invariant _ _ _
    (List.Perm.swap (⟨"b", none, none, "https://b", true⟩ : Event)
      (⟨"a", some ⟨2025, 6, 1, 15, 0, 0⟩, some ("2025-06-01T15:00:00"), "https://a", false⟩ : Event)
      [])
    (by decide) (by decide)

/-- C4 counterexample: two records with the same start but different
titles (and distinct identity keys) — swapping the input order swaps the
tied entries, so the documents differ and output order is not a pure
function of `start` alone. -/
theorem build_calendar_order_dependent :
    List.Perm
      ([⟨"a", some ⟨2025, 6, 1, 15, 0, 0⟩, some ("2025-06-01T15:00:00"), "https://a", false⟩,
        ⟨"b", some ⟨2025, 6, 1, 15, 0, 0⟩, some ("x"), "https://b", false⟩] : List Event)
      [⟨"b", some ⟨2025, 6, 1, 15, 0, 0⟩, some ("x"), "https://b", false⟩,
       ⟨"a", some ⟨2025, 6, 1, 15, 0, 0⟩, some ("2025-06-01T15:00:00"), "https://a", false⟩] ∧
    build_calendar
        [⟨"a", some ⟨2025, 6, 1, 15, 0, 0⟩, some ("2025-06-01T15:00:00"), "https://a", false⟩,
         ⟨"b", some ⟨2025, 6, 1, 15, 0, 0⟩, some ("x"), "https://b", false⟩] ⟨2025, 1, 1, 0, 0, 0⟩ ≠
      build_calendar
        [⟨"b", some ⟨2025, 6, 1, 15, 0, 0⟩, some ("x"), "https://b", false⟩,
         ⟨"a", some ⟨2025, 6, 1, 15, 0, 0⟩, some ("2025-06-01T15:00:00"), "https://a", false⟩]
        ⟨2025, 1, 1, 0, 0, 0⟩ := by
  constructor
  · exact List.Perm.swap _ _ _
  · decide

/-! ### Claims about the entry identifier and the extractors -/

/-- C5: the calendar-entry identifier is the SHA-1 hex digest of
`title + "|" + (isoformat of start, or the literal "TBC") + "|wembley"`
suffixed with `"@wembley-auto"`, and it depends only on title and start —
not on url, the tbc flag, or the run date — so equal (title, start)
reproduce byte-identical identifiers. -/
theorem vevent_uid_stable (t : String) (sd : Option Datetime) (u u2 : String)
    (b b2 : Bool) (today today2 : Datetime) :
    (veventLines t sd u b today).get? 1 =
        some ("UID:" ++
          (sha1Hex (utf8Bytes (t ++ "|" ++ isoOrTBC sd ++ "|wembley")) ++ "@wembley-auto")) ∧
      (veventLines t sd u b today).get? 1 = (veventLines t sd u2 b2 today2).get? 1 :=
  ⟨rfl, rfl⟩

/-- C1 (code bug): with no parseable structured block, `items` is never
assigned, so the extraction loop raises UnboundLocalError and the run
crashes instead of falling back to the card extractor and emitting an
empty calendar.  (`parse_jsonld_events` can return `some []` — a
parseable block with no events — and only then does `main` fall back;
markup with zero structured blocks, the claim's case, never gets there.) -/
theorem extraction_raises_without_blocks (cards : List Card) :
    parse_jsonld_events [] = none ∧ pipelineEvents [] cards = none :=
  ⟨rfl, rfl⟩

/-- C2 (code bug): `items` is rebound per block and the extraction loop
sits outside the block loop (the dead `found` accumulator betrays the
intended accumulation), so only the last parseable block is scanned: two
blocks holding events "A" and "B" yield only the "B" record; and a lone
malformed block is fatal (UnboundLocalError) rather than skipped
silently. -/
theorem only_last_block_scanned :
    parse_jsonld_events
        [some (Json.obj [(kType, Json.str ("Event")), (kName, Json.str ("A"))]),
         some (Json.obj [(kType, Json.str ("Event")), (kName, Json.str ("B"))])] =
      some [⟨"B", none, none, EVENTS_URL, true⟩] ∧
    parse_jsonld_events [none] = none :=
  ⟨rfl, rfl⟩

/-- C3 counterexample: the structured extractor stores a relative
embedded url value unchanged, so the produced record's url need not be an
absolute schemed address. -/
theorem jsonld_relative_url_kept :
    parse_jsonld_events
        [some (Json.obj [(kType, Json.str ("Event")), (kName, Json.str ("X")),
          (kUrl, Json.str ("/tickets/x"))])] =
      some [⟨"X", none, none, "/tickets/x", true⟩] ∧
    hasUrlScheme ("/tickets/x") = false :=
  ⟨rfl, rfl⟩

theorem site_origin_schemed (x : String) : hasUrlScheme (siteOrigin ++ x) = true := rfl

/-- C3 (amended): every record built by the fallback card extractor has
an absolute schemed url, provided each href beginning with "http" is
itself schemed (such hrefs are trusted verbatim); the structured
extractor gives no such guarantee, since it passes a present embedded url
value through unchanged. -/
theorem fallback_urls_schemed (cards : List Card)
    (hcards : ∀ c ∈ cards, ∀ hr, c.href = some hr → pyStartsWith hr hHttp = true →
      hasUrlScheme hr = true)
    (e : Event) (he : e ∈ parse_html_cards cards) : hasUrlScheme e.url = true := by
  induction cards with
  | nil => simp [parse_html_cards] at he
  | cons a rest ih =>
    simp only [parse_html_cards] at he
    rcases List.mem_append.mp he with hl | hr
    · by_cases hta : a.text == ""
      · rw [if_pos hta] at hl
        simp at hl
      · rw [if_neg hta] at hl
        rcases List.mem_singleton.mp hl with rfl
        show hasUrlScheme (cardUrl (a.href.getD "")) = true
        unfold cardUrl
        by_cases h1 : pyStartsWith (a.href.getD "") hHttp
        · rw [if_pos h1]
          cases hhref : a.href with
          | none =>
            rw [hhref] at h1
            exact absurd h1 (by decide)
          | some hr2 =>
            simp only [hhref, Option.getD_some] at h1 ⊢
            exact hcards a (List.mem_cons_self _ _) hr2 hhref h1
        · rw [if_neg h1]
          by_cases h2 : pyStartsWith (a.href.getD "") hSlash
          · rw [if_pos h2]
            exact site_origin_schemed _
          · rw [if_neg h2]
            rfl
    · exact ih (fun c hc => hcards c (List.mem_cons_of_mem _ hc)) hr

/-- Witness for the amended C3 at a concrete card list. -/
theorem fallback_urls_schemed_witness :
    hasUrlScheme ("https://ok/x") = true := by
  refine fallback_urls_schemed [⟨"T", some ("https://ok/x"), "no date here"⟩] ?_
    ⟨"T", none, some (""), "https://ok/x", true⟩ (by decide)
  intro c hc hr hhref hstart
  rcases List.mem_singleton.mp hc with rfl
  simp only [Option.some.injEq] at hhref
  subst hhref
  decide

/-- C9: a card url resolves exactly as claimed — an href beginning with
"http" is used unchanged, one beginning with "/" gets the site origin
prepended, and every other href (including empty or missing) is replaced
by the events-listing URL; and every produced record's url is the
resolution of some input card's href. -/
theorem card_href_resolution (cards : List Card) (e : Event) (h : String) :
    (e ∈ parse_html_cards cards → ∃ c ∈ cards, e.url = cardUrl (c.href.getD "")) ∧
      (pyStartsWith h hHttp = true → cardUrl h = h) ∧
      (pyStartsWith h hHttp = false → pyStartsWith h hSlash = true →
        cardUrl h = siteOrigin ++ h) ∧
      (pyStartsWith h hHttp = false → pyStartsWith h hSlash = false →
        cardUrl h = EVENTS_URL) := by
  refine ⟨?_, ?_, ?_, ?_⟩
  · induction cards with
    | nil => intro hmem; simp [parse_html_cards] at hmem
    | cons a rest ih =>
      intro hmem
      simp only [parse_html_cards] at hmem
      rcases List.mem_append.mp hmem with hl | hr
      · refine ⟨a, List.mem_cons_self _ _, ?_⟩
        by_cases hta : a.text == ""
        · rw [if_pos hta] at hl
          simp at hl
        · rw [if_neg hta] at hl
          rcases List.mem_singleton.mp hl with rfl
          rfl
      · obtain ⟨c, hc, hurl⟩ := ih hr
        exact ⟨c, List.mem_cons_of_mem _ hc, hurl⟩
  · intro hh
    unfold cardUrl
    rw [if_pos hh]
  · intro hh hs
    unfold cardUrl
    rw [if_neg (by simp [hh]), if_pos hs]
  · intro hh hs
    unfold cardUrl
    rw [if_neg (by simp [hh]), if_neg (by simp [hs])]

/-- Witness for C9: a root-relative href gets the site origin prepended. -/
theorem card_href_resolution_witness :
    cardUrl ("/x") = siteOrigin ++ ("/x") :=
  (card_href_resolution [] ⟨"", none, none, "", false⟩ ("/x")).2.2.1 (by decide) (by decide)

/-! ### The `tb`-pair invariant of strptime matches -/

theorem ctb_append (a b : List Char) :
    ctb (a ++ b) = (ctb a || lastIsT a && headIsB b || ctb b) := by
  induction a with
  | nil => simp [ctb, lastIsT]
  | cons c a ih =>
    cases a with
    | nil =>
      show ctb (c :: b) = (ctb [c] || lastIsT [c] && headIsB b || ctb b)
      rw [ctb, show ctb [c] = ((c == 't' && headIsB []) || ctb []) from rfl,
        show (ctb [] : Bool) = false from rfl,
        show (headIsB [] : Bool) = false from rfl,
        show lastIsT [c] = (c == 't') from rfl]
      cases c == 't' <;> cases headIsB b <;> cases ctb b <;> simp
    | cons d a2 =>
      rw [List.cons_append, ctb, ih,
        show ctb (c :: d :: a2) = ((c == 't' && headIsB (d :: a2)) || ctb (d :: a2)) from rfl,
        show lastIsT (c :: d :: a2) = lastIsT (d :: a2) from rfl,
        show headIsB ((d :: a2) ++ b) = headIsB (d :: a2) from rfl]
      cases c == 't' && headIsB (d :: a2) <;> cases ctb (d :: a2) <;>
        cases lastIsT (d :: a2) && headIsB b <;> cases ctb b <;> simp

theorem no_t_ctb (l : List Char) (h : ∀ c ∈ l, (c == 't') = false) : ctb l = false := by
  induction l with
  | nil => rfl
  | cons c l ih =>
    rw [ctb, h c (List.mem_cons_self _ _)]
    simp [ih (fun d hd => h d (List.mem_cons_of_mem _ hd))]

theorem no_t_lastIsT (l : List Char) (h : ∀ c ∈ l, (c == 't') = false) :
    lastIsT l = false := by
  induction l with
  | nil => rfl
  | cons c l ih =>
    cases l with
    | nil => exact h c (List.mem_cons_self _ _)
    | cons d l2 =>
      rw [show lastIsT (c :: d :: l2) = lastIsT (d :: l2) from rfl]
      exact ih (fun e he => h e (List.mem_cons_of_mem _ he))

theorem headIsB_false (l : List Char) (h : ∀ c ∈ l, (c == 'b') = false) :
    headIsB l = false := by
  cases l with
  | nil => rfl
  | cons c l => exact h c (List.mem_cons_self _ _)

theorem lowCh_small (c : Char) (h : c.toNat < 65) : lowCh c = c := by
  unfold lowCh
  rw [if_neg (by omega)]

theorem digitCh_safe (c : Char) (h : isDigitCh c = true) :
    (lowCh c == 't') = false ∧ (lowCh c == 'b') = false := by
  have h2 : c.toNat < 65 := by
    unfold isDigitCh at h
    simp only [Bool.and_eq_true, decide_eq_true_eq] at h
    omega
  rw [lowCh_small c h2]
  constructor <;> rw [beq_eq_false_iff_ne] <;> intro he <;> subst he <;>
    exact absurd h (by decide)

theorem wsCh_safe (c : Char) (h : isWsCh c = true) :
    lowCh c = c ∧ (c == 't') = false ∧ (c == 'b') = false := by
  unfold isWsCh at h
  simp only [Bool.or_eq_true, beq_iff_eq] at h
  rcases h with ((((rfl | rfl) | rfl) | rfl) | rfl) | rfl <;> exact ⟨rfl, rfl, rfl⟩

theorem PS_nil : PS [] := ⟨rfl, rfl⟩

theorem PS_append (p1 p2 : List Char) (h1 : PS p1) (h2 : PS p2) : PS (p1 ++ p2) := by
  obtain ⟨c1, b1⟩ := h1
  obtain ⟨c2, b2⟩ := h2
  have hm : lowmap (p1 ++ p2) = lowmap p1 ++ lowmap p2 := List.map_append lowCh p1 p2
  constructor
  · rw [hm, ctb_append, c1, c2, b2]
    simp
  · rw [hm]
    cases hp : lowmap p1 with
    | nil => rw [List.nil_append]; exact b2
    | cons c l =>
      rw [hp] at b1
      exact b1

theorem PS_of_safe (p : List Char)
    (h : ∀ c ∈ p, (lowCh c == 't') = false ∧ (lowCh c == 'b') = false) : PS p := by
  constructor
  · apply no_t_ctb
    intro c hc
    obtain ⟨d, hd, rfl⟩ := List.mem_map.mp hc
    exact (h d hd).1
  · apply headIsB_false
    intro c hc
    obtain ⟨d, hd, rfl⟩ := List.mem_map.mp hc
    exact (h d hd).2

theorem pc_bind_eq {α β : Type} (q : Pc α) (f : α → Pc β) (l : List Char) :
    (q >>= f) l =
      match q l with
      | none => none
      | some (a, r) => f a r := rfl

theorem pc_pure_eq {α : Type} (a : α) (l : List Char) :
    (pure a : Pc α) l = some (a, l) := rfl

theorem psp_pure {α : Type} (a : α) : PSP (pure a : Pc α) := by
  intro l x r h
  rw [pc_pure_eq] at h
  simp only [Option.some.injEq, Prod.mk.injEq] at h
  obtain ⟨rfl, rfl⟩ := h
  exact ⟨[], (List.nil_append l).symm, PS_nil⟩

theorem psp_bind {α β : Type} (q : Pc α) (f : α → Pc β) (hq : PSP q)
    (hf : ∀ a, PSP (f a)) : PSP (q >>= f) := by
  intro l x r h
  rw [pc_bind_eq] at h
  cases hql : q l with
  | none => rw [hql] at h; exact absurd h (by simp)
  | some ar =>
    obtain ⟨a1, r1⟩ := ar
    rw [hql] at h
    obtain ⟨p1, hl1, hp1⟩ := hq l a1 r1 hql
    obtain ⟨p2, hl2, hp2⟩ := hf a1 r1 x r h
    refine ⟨p1 ++ p2, ?_, PS_append p1 p2 hp1 hp2⟩
    rw [hl1, hl2, List.append_assoc]

/-! ### PSP facts for the strptime components -/

theorem psp_p21 (ok2 : Nat → Nat → Bool) (ok1 : Nat → Bool) : PSP (p21 ok2 ok1) := by
  intro l a r h
  unfold p21 at h
  split at h
  · rename_i c1 c2 rest
    split_ifs at h with h1 h2
    · simp only [Option.some.injEq, Prod.mk.injEq] at h
      obtain ⟨-, rfl⟩ := h
      refine ⟨[c1, c2], rfl, PS_of_safe _ ?_⟩
      simp only [Bool.and_eq_true] at h1
      intro c hc
      rcases List.mem_cons.mp hc with rfl | hc
      · exact digitCh_safe c h1.1.1
      · rcases List.mem_singleton.mp hc with rfl
        exact digitCh_safe c h1.1.2
    · simp only [Option.some.injEq, Prod.mk.injEq] at h
      obtain ⟨-, rfl⟩ := h
      refine ⟨[c1], rfl, PS_of_safe _ ?_⟩
      simp only [Bool.and_eq_true] at h2
      intro c hc
      rcases List.mem_singleton.mp hc with rfl
      exact digitCh_safe c h2.1
  · rename_i c1
    split_ifs at h with h1
    · simp only [Option.some.injEq, Prod.mk.injEq] at h
      obtain ⟨-, rfl⟩ := h
      refine ⟨[c1], (List.append_nil _).symm, PS_of_safe _ ?_⟩
      simp only [Bool.and_eq_true] at h1
      intro c hc
      rcases List.mem_singleton.mp hc with rfl
      exact digitCh_safe c h1.1
  · exact absurd h (by simp)

theorem psp_pY : PSP pY := by
  intro l a r h
  unfold pY at h
  split at h
  · rename_i c1 c2 c3 c4 rest
    split_ifs at h with h1
    · simp only [Option.some.injEq, Prod.mk.injEq] at h
      obtain ⟨-, rfl⟩ := h
      refine ⟨[c1, c2, c3, c4], rfl, PS_of_safe _ ?_⟩
      simp only [Bool.and_eq_true] at h1
      intro c hc
      rcases List.mem_cons.mp hc with rfl | hc
      · exact digitCh_safe c h1.1.1.1
      rcases List.mem_cons.mp hc with rfl | hc
      · exact digitCh_safe c h1.1.1.2
      rcases List.mem_cons.mp hc with rfl | hc
      · exact digitCh_safe c h1.1.2
      rcases List.mem_singleton.mp hc with rfl
      exact digitCh_safe c h1.2
  · exact absurd h (by simp)

theorem psp_pMonth : PSP pMonth := psp_p21 _ _

theorem psp_pDay : PSP pDay := psp_p21 _ _

theorem psp_pHour : PSP pHour := psp_p21 _ _

theorem psp_pMin : PSP pMin := psp_p21 _ _

theorem psp_pSec : PSP pSec := psp_p21 _ _

theorem psp_pLit (ch : Char) (hch : (lowCh ch == 'b') = false) : PSP (pLit ch) := by
  intro l a r h
  unfold pLit at h
  split at h
  · rename_i c rest
    split_ifs at h with h1
    · simp only [Option.some.injEq, Prod.mk.injEq] at h
      obtain ⟨-, rfl⟩ := h
      refine ⟨[c], rfl, ?_, ?_⟩
      · simp [lowmap, ctb, headIsB]
      · show (lowCh c == 'b') = false
        rw [eq_of_beq h1]
        exact hch
  · exact absurd h (by simp)

theorem psp_pWs : PSP pWs := by
  intro l a r h
  unfold pWs at h
  split_ifs at h with h1
  simp only [Option.some.injEq, Prod.mk.injEq] at h
  obtain ⟨-, rfl⟩ := h
  refine ⟨l.takeWhile isWsCh, (List.takeWhile_append_dropWhile isWsCh l).symm,
    PS_of_safe _ ?_⟩
  intro c hc
  obtain ⟨he, ht, hb⟩ := wsCh_safe c (List.mem_takeWhile_imp hc)
  rw [he]
  exact ⟨ht, hb⟩

theorem stripName_split (pat : List Char) :
    ∀ l r, stripName pat l = some r → ∃ p, l = p ++ r ∧ lowmap p = pat := by
  induction pat with
  | nil =>
    intro l r h
    simp only [stripName, Option.some.injEq] at h
    exact ⟨[], by rw [h, List.nil_append], rfl⟩
  | cons pc ps ih =>
    intro l r h
    cases l with
    | nil => simp [stripName] at h
    | cons c cs =>
      rw [stripName] at h
      split_ifs at h with h1
      · obtain ⟨p, rfl, hp⟩ := ih cs r h
        exact ⟨c :: p, rfl, by simp only [lowmap, List.map_cons, eq_of_beq h1]; rw [← hp]; rfl⟩

theorem psp_pName (names : List (Nat × String))
    (hn : ∀ mn ∈ names, ctb mn.2.data = false ∧ headIsB mn.2.data = false) :
    PSP (pName names) := by
  intro l a r h
  unfold pName at h
  obtain ⟨mn, hmem, hmn⟩ := List.exists_of_findSome?_eq_some h
  cases hs : stripName mn.2.data l with
  | none => rw [hs] at hmn; exact absurd hmn (by simp)
  | some r2 =>
    rw [hs] at hmn
    simp only [Option.some.injEq, Prod.mk.injEq] at hmn
    obtain ⟨-, rfl⟩ := hmn
    obtain ⟨p, rfl, hp⟩ := stripName_split mn.2.data l r2 hs
    refine ⟨p, rfl, ?_, ?_⟩
    · rw [hp]
      exact (hn mn hmem).1
    · rw [hp]
      exact (hn mn hmem).2

theorem psp_pSign : PSP pSign := by
  intro l a r h
  unfold pSign at h
  split at h
  · simp only [Option.some.injEq, Prod.mk.injEq] at h
    obtain ⟨-, rfl⟩ := h
    exact ⟨['+'], rfl, by decide, by decide⟩
  · simp only [Option.some.injEq, Prod.mk.injEq] at h
    obtain ⟨-, rfl⟩ := h
    exact ⟨['-'], rfl, by decide, by decide⟩
  · exact absurd h (by simp)

theorem psp_pColonOpt : PSP pColonOpt := by
  intro l a r h
  unfold pColonOpt at h
  split at h
  · simp only [Option.some.injEq, Prod.mk.injEq] at h
    obtain ⟨-, rfl⟩ := h
    exact ⟨[':'], rfl, by decide, by decide⟩
  · simp only [Option.some.injEq, Prod.mk.injEq] at h
    obtain ⟨-, rfl⟩ := h
    exact ⟨[], (List.nil_append _).symm, PS_nil⟩

theorem psp_pP2 : PSP pP2 := by
  intro l a r h
  unfold pP2 at h
  split at h
  · rename_i c1 c2 rest
    split_ifs at h with h1
    · simp only [Option.some.injEq, Prod.mk.injEq] at h
      obtain ⟨-, rfl⟩ := h
      refine ⟨[c1, c2], rfl, PS_of_safe _ ?_⟩
      simp only [Bool.and_eq_true] at h1
      intro c hc
      rcases List.mem_cons.mp hc with rfl | hc
      · exact digitCh_safe c h1.1
      · rcases List.mem_singleton.mp hc with rfl
        exact digitCh_safe c h1.2
  · exact absurd h (by simp)

theorem psp_pP25 : PSP pP25 := by
  intro l a r h
  unfold pP25 at h
  cases h2 : pP2 l with
  | none => rw [h2] at h; exact absurd h (by simp)
  | some vr =>
    rw [h2] at h
    obtain ⟨v, r2⟩ := vr
    dsimp only at h
    split_ifs at h with h1
    simp only [Option.some.injEq, Prod.mk.injEq] at h
    obtain ⟨-, rfl⟩ := h
    exact psp_pP2 l v r2 h2

theorem psp_pZSecsBody : PSP pZSecsBody := by
  unfold pZSecsBody
  apply psp_bind _ _ psp_pColonOpt
  intro c2
  apply psp_bind _ _ psp_pP25
  intro ss
  exact psp_pure _

theorem psp_pZSecs (colon1 : Bool) : PSP (pZSecs colon1) := by
  intro l a r h
  unfold pZSecs at h
  cases hb : pZSecsBody l with
  | some pr =>
    rw [hb] at h
    obtain ⟨p0, r0⟩ := pr
    dsimp only at h
    split_ifs at h with h1
    simp only [Option.some.injEq, Prod.mk.injEq] at h
    obtain ⟨-, rfl⟩ := h
    exact psp_pZSecsBody l p0 r0 hb
  | none =>
    rw [hb] at h
    simp only [Option.some.injEq, Prod.mk.injEq] at h
    obtain ⟨-, rfl⟩ := h
    exact ⟨[], (List.nil_append _).symm, PS_nil⟩

theorem psp_pZBody : PSP pZBody := by
  unfold pZBody
  apply psp_bind _ _ psp_pSign
  intro sg
  apply psp_bind _ _ psp_pP2
  intro hh
  apply psp_bind _ _ psp_pColonOpt
  intro c1
  apply psp_bind _ _ psp_pP25
  intro mm
  apply psp_bind _ _ (psp_pZSecs c1)
  intro ss
  exact psp_pure _

theorem psp_pZ : PSP pZ := by
  intro l a r h
  unfold pZ at h
  split at h
  · simp only [Option.some.injEq, Prod.mk.injEq] at h
    obtain ⟨-, rfl⟩ := h
    exact ⟨['Z'], rfl, by decide, by decide⟩
  · exact psp_pZBody l a r h

/-! ### PSP for the nine formats -/

theorem psp_monthAbbrs :
    ∀ mn ∈ monthAbbrs, ctb mn.2.data = false ∧ headIsB mn.2.data = false := by decide

theorem psp_monthFulls :
    ∀ mn ∈ monthFulls, ctb mn.2.data = false ∧ headIsB mn.2.data = false := by decide

theorem psp_fIsoSecZ : PSP fIsoSecZ := by
  unfold fIsoSecZ
  apply psp_bind _ _ psp_pY; intro y
  apply psp_bind _ _ (psp_pLit '-' (by decide)); intro u1
  apply psp_bind _ _ psp_pMonth; intro m
  apply psp_bind _ _ (psp_pLit '-' (by decide)); intro u2
  apply psp_bind _ _ psp_pDay; intro d
  apply psp_bind _ _ (psp_pLit 'T' (by decide)); intro u3
  apply psp_bind _ _ psp_pHour; intro hh
  apply psp_bind _ _ (psp_pLit ':' (by decide)); intro u4
  apply psp_bind _ _ psp_pMin; intro mi
  apply psp_bind _ _ (psp_pLit ':' (by decide)); intro u5
  apply psp_bind _ _ psp_pSec; intro ss
  apply psp_bind _ _ psp_pZ; intro z
  exact psp_pure _

theorem psp_fIsoSec : PSP fIsoSec := by
  unfold fIsoSec
  apply psp_bind _ _ psp_pY; intro y
  apply psp_bind _ _ (psp_pLit '-' (by decide)); intro u1
  apply psp_bind _ _ psp_pMonth; intro m
  apply psp_bind _ _ (psp_pLit '-' (by decide)); intro u2
  apply psp_bind _ _ psp_pDay; intro d
  apply psp_bind _ _ (psp_pLit 'T' (by decide)); intro u3
  apply psp_bind _ _ psp_pHour; intro hh
  apply psp_bind _ _ (psp_pLit ':' (by decide)); intro u4
  apply psp_bind _ _ psp_pMin; intro mi
  apply psp_bind _ _ (psp_pLit ':' (by decide)); intro u5
  apply psp_bind _ _ psp_pSec; intro ss
  exact psp_pure _

theorem psp_fIsoMin : PSP fIsoMin := by
  unfold fIsoMin
  apply psp_bind _ _ psp_pY; intro y
  apply psp_bind _ _ (psp_pLit '-' (by decide)); intro u1
  apply psp_bind _ _ psp_pMonth; intro m
  apply psp_bind _ _ (psp_pLit '-' (by decide)); intro u2
  apply psp_bind _ _ psp_pDay; intro d
  apply psp_bind _ _ (psp_pLit 'T' (by decide)); intro u3
  apply psp_bind _ _ psp_pHour; intro hh
  apply psp_bind _ _ (psp_pLit ':' (by decide)); intro u4
  apply psp_bind _ _ psp_pMin; intro mi
  exact psp_pure _

theorem psp_fYmdHM : PSP fYmdHM := by
  unfold fYmdHM
  apply psp_bind _ _ psp_pY; intro y
  apply psp_bind _ _ (psp_pLit '-' (by decide)); intro u1
  apply psp_bind _ _ psp_pMonth; intro m
  apply psp_bind _ _ (psp_pLit '-' (by decide)); intro u2
  apply psp_bind _ _ psp_pDay; intro d
  apply psp_bind _ _ psp_pWs; intro u3
  apply psp_bind _ _ psp_pHour; intro hh
  apply psp_bind _ _ (psp_pLit ':' (by decide)); intro u4
  apply psp_bind _ _ psp_pMin; intro mi
  exact psp_pure _

theorem psp_fDbYHM : PSP fDbYHM := by
  unfold fDbYHM
  apply psp_bind _ _ psp_pDay; intro d
  apply psp_bind _ _ psp_pWs; intro u1
  apply psp_bind _ _ (psp_pName monthAbbrs psp_monthAbbrs); intro m
  apply psp_bind _ _ psp_pWs; intro u2
  apply psp_bind _ _ psp_pY; intro y
  apply psp_bind _ _ psp_pWs; intro u3
  apply psp_bind _ _ psp_pHour; intro hh
  apply psp_bind _ _ (psp_pLit ':' (by decide)); intro u4
  apply psp_bind _ _ psp_pMin; intro mi
  exact psp_pure _

theorem psp_fDBYHM : PSP fDBYHM := by
  unfold fDBYHM
  apply psp_bind _ _ psp_pDay; intro d
  apply psp_bind _ _ psp_pWs; intro u1
  apply psp_bind _ _ (psp_pName monthFulls psp_monthFulls); intro m
  apply psp_bind _ _ psp_pWs; intro u2
  apply psp_bind _ _ psp_pY; intro y
  apply psp_bind _ _ psp_pWs; intro u3
  apply psp_bind _ _ psp_pHour; intro hh
  apply psp_bind _ _ (psp_pLit ':' (by decide)); intro u4
  apply psp_bind _ _ psp_pMin; intro mi
  exact psp_pure _

theorem psp_fDbY : PSP fDbY := by
  unfold fDbY
  apply psp_bind _ _ psp_pDay; intro d
  apply psp_bind _ _ psp_pWs; intro u1
  apply psp_bind _ _ (psp_pName monthAbbrs psp_monthAbbrs); intro m
  apply psp_bind _ _ psp_pWs; intro u2
  apply psp_bind _ _ psp_pY; intro y
  exact psp_pure _

theorem psp_fDBY : PSP fDBY := by
  unfold fDBY
  apply psp_bind _ _ psp_pDay; intro d
  apply psp_bind _ _ psp_pWs; intro u1
  apply psp_bind _ _ (psp_pName monthFulls psp_monthFulls); intro m
  apply psp_bind _ _ psp_pWs; intro u2
  apply psp_bind _ _ psp_pY; intro y
  exact psp_pure _

theorem psp_fYmd : PSP fYmd := by
  unfold fYmd
  apply psp_bind _ _ psp_pY; intro y
  apply psp_bind _ _ (psp_pLit '-' (by decide)); intro u1
  apply psp_bind _ _ psp_pMonth; intro m
  apply psp_bind _ _ (psp_pLit '-' (by decide)); intro u2
  apply psp_bind _ _ psp_pDay; intro d
  exact psp_pure _

theorem psp_fmtPc (f : Fmt) : PSP (fmtPc f) := by
  cases f
  · exact psp_fIsoSecZ
  · exact psp_fIsoSec
  · exact psp_fIsoMin
  · exact psp_fYmdHM
  · exact psp_fDbYHM
  · exact psp_fDBYHM
  · exact psp_fDbY
  · exact psp_fDBY
  · exact psp_fYmd

/-! ### From a TBC/TBA marker to every format failing -/

theorem ctb_lowmap_split_left (tw dw : List Char) (htw : ∀ c ∈ tw, isWsCh c = true) :
    ctb (lowmap (tw ++ dw)) = ctb (lowmap dw) := by
  rw [show lowmap (tw ++ dw) = lowmap tw ++ lowmap dw from List.map_append lowCh tw dw,
    ctb_append]
  have hsafe : ∀ c ∈ lowmap tw, (c == 't') = false := by
    intro c hc
    obtain ⟨d, hd, rfl⟩ := List.mem_map.mp hc
    obtain ⟨he, ht, -⟩ := wsCh_safe d (htw d hd)
    rw [he]
    exact ht
  rw [no_t_ctb _ hsafe, no_t_lastIsT _ hsafe]
  simp

theorem ctb_lowmap_split_right (core w2 : List Char) (hw : ∀ c ∈ w2, isWsCh c = true) :
    ctb (lowmap (core ++ w2)) = ctb (lowmap core) := by
  rw [show lowmap (core ++ w2) = lowmap core ++ lowmap w2 from List.map_append lowCh core w2,
    ctb_append]
  have hsafeb : headIsB (lowmap w2) = false := by
    apply headIsB_false
    intro c hc
    obtain ⟨d, hd, rfl⟩ := List.mem_map.mp hc
    obtain ⟨he, -, hb⟩ := wsCh_safe d (hw d hd)
    rw [he]
    exact hb
  have hsafet : ∀ c ∈ lowmap w2, (c == 't') = false := by
    intro c hc
    obtain ⟨d, hd, rfl⟩ := List.mem_map.mp hc
    obtain ⟨he, ht, -⟩ := wsCh_safe d (hw d hd)
    rw [he]
    exact ht
  rw [no_t_ctb _ hsafet, hsafeb]
  simp

theorem ctb_stripList (l : List Char) :
    ctb (lowmap (stripList l)) = ctb (lowmap l) := by
  have h1 : ctb (lowmap l) = ctb (lowmap (l.dropWhile isWsCh)) := by
    conv_lhs => rw [← List.takeWhile_append_dropWhile isWsCh l]
    exact ctb_lowmap_split_left _ _ (fun c hc => List.mem_takeWhile_imp hc)
  have hd : l.dropWhile isWsCh =
      stripList l ++ ((l.dropWhile isWsCh).reverse.takeWhile isWsCh).reverse := by
    unfold stripList dropTrailWs
    conv_lhs => rw [← List.reverse_reverse (l.dropWhile isWsCh),
      ← List.takeWhile_append_dropWhile isWsCh (l.dropWhile isWsCh).reverse,
      List.reverse_append]
  have h2 : ctb (lowmap (l.dropWhile isWsCh)) = ctb (lowmap (stripList l)) := by
    conv_lhs => rw [hd]
    exact ctb_lowmap_split_right _ _
      (fun c hc => List.mem_takeWhile_imp (List.mem_reverse.mp hc))
  rw [h1, h2]

theorem hasTbcGo_ctb (l : List Char) : ∀ pw, hasTbcGo pw l = true → ctb l = true := by
  induction l with
  | nil => intro pw h; simp [hasTbcGo] at h
  | cons c rest ih =>
    intro pw h
    rw [hasTbcGo] at h
    rcases (Bool.or_eq_true _ _).mp h with h1 | h2
    · have ht : tbcAt (c :: rest) = true := ((Bool.and_eq_true _ _).mp h1).2
      unfold tbcAt at ht
      split at ht
      · rename_i heq
        injection heq with hc hrest
        subst hc
        subst hrest
        rfl
      · rename_i heq
        injection heq with hc hrest
        subst hc
        subst hrest
        rfl
      · exact absurd ht (by simp)
    · rw [ctb, ih (isWordCh c) h2]
      simp

theorem fmt_match_no_ctb (q : Pc Strp) (hq : PSP q) (l : List Char) (r : Strp)
    (h : runFmt q l = some r) : ctb (lowmap l) = false := by
  unfold runFmt at h
  split at h
  · rename_i r2 heq
    obtain ⟨p, hp, hps⟩ := hq l r2 [] heq
    rw [hp, List.append_nil]
    exact hps.1
  · exact absurd h (by simp)

theorem tryFmt_none_of_ctb (f : Fmt) (s : String)
    (h : ctb (lowmap s.data) = true) : tryFmt f s = none := by
  unfold tryFmt
  cases hr : runFmt (fmtPc f) s.data with
  | none => rfl
  | some r =>
    exfalso
    have h2 := fmt_match_no_ctb _ (psp_fmtPc f) _ _ hr
    rw [h2] at h
    exact Bool.false_ne_true h

/-! ### The format loop -/

theorem coerceGo_all_fail (s : String) (L : List Fmt)
    (h : ∀ f ∈ L, tryFmt f s = none) : coerceGo s L = none := by
  induction L with
  | nil => rfl
  | cons f L ih =>
    rw [coerceGo, h f (List.mem_cons_self _ _)]
    exact ih (fun g hg => h g (List.mem_cons_of_mem _ hg))

theorem coerceGo_append_fail (s : String) (L1 L2 : List Fmt)
    (h : ∀ f ∈ L1, tryFmt f s = none) :
    coerceGo s (L1 ++ L2) = coerceGo s L2 := by
  induction L1 with
  | nil => rfl
  | cons f L ih =>
    rw [List.cons_append, coerceGo, h f (List.mem_cons_self _ _)]
    exact ih (fun g hg => h g (List.mem_cons_of_mem _ hg))

theorem coerceGo_bare (s : String) (L : List Fmt)
    (h : ∀ f ∈ L, fmtIsBare f = true) :
    coerceGo s L = none ∨ coerceGo s L = some none := by
  induction L with
  | nil => exact Or.inl rfl
  | cons f L ih =>
    rw [coerceGo]
    cases htf : tryFmt f s with
    | some dt =>
      right
      rw [h f (List.mem_cons_self _ _)]
      simp
    | none => exact ih (fun g hg => h g (List.mem_cons_of_mem _ hg))

/-- C6: date coercion returns "unknown" (`none`) when the input matches
only a bare-date format (no combined date-and-time format accepts it),
when it carries a word-bounded case-insensitive TBC or TBA marker, or
when no accepted format matches at all; being a total function of the
string, the model also witnesses that no input raises. -/
theorem coerce_unknown_cases (s : String)
    (h : ((∀ f ∈ timeFmts, tryFmt f (pyStrip s) = none) ∧
          (∃ f ∈ bareFmts, tryFmt f (pyStrip s) ≠ none)) ∨
         hasTbcMarker s = true ∨
         (∀ f ∈ fmts, tryFmt f (pyStrip s) = none)) :
    coerce_datetime s = none := by
  unfold coerce_datetime
  dsimp only
  rcases h with ⟨htime, -⟩ | htbc | hall
  · have hsplit : coerceGo (pyStrip s) fmts = coerceGo (pyStrip s) bareFmts := by
      rw [show fmts = timeFmts ++ bareFmts from rfl]
      exact coerceGo_append_fail _ _ _ htime
    rcases coerceGo_bare (pyStrip s) bareFmts (by decide) with hb | hb <;>
      rw [hsplit, hb]
    exact ite_self none
  · have hctb : ctb (lowmap (pyStrip s).data) = true := by
      rw [show (pyStrip s).data = stripList s.data from rfl, ctb_stripList]
      exact hasTbcGo_ctb _ false htbc
    rw [coerceGo_all_fail _ _ (fun f _ => tryFmt_none_of_ctb f (pyStrip s) hctb)]
    exact ite_self none
  · rw [coerceGo_all_fail _ _ hall]
    exact ite_self none

/-- Witness for C6 on a marked input. -/
theorem coerce_unknown_cases_witness : coerce_datetime ("kickoff TBC tonight") = none :=
  coerce_unknown_cases ("kickoff TBC tonight") (Or.inr (Or.inl (by decide)))

/-- C7 (amended): for a token accepted by the offset-bearing format
`%Y-%m-%dT%H:%M:%S%z` (valid fields, offset strictly inside ±24 hours)
whose UTC instant stays within the representable years 1..9999, coercion
returns the naive clock time obtained by converting the parsed instant
to UTC and dropping the offset.  Offset-bearing tokens of any other
shape — for example date-and-time without seconds — fall through every
format and coerce to "unknown" (see the counterexample), as do tokens
whose conversion leaves the representable range. -/
theorem coerce_offset_to_utc (s : String) (r : Strp) (off : Int)
    (hp : runFmt fIsoSecZ (pyStrip s).data = some r)
    (hoff : r.off = some off)
    (hv : strpValid r = true)
    (hb : off.natAbs < 86400)
    (hlow : minSec ≤ secondsFromCivil (strpDt r) - off)
    (hhigh : secondsFromCivil (strpDt r) - off ≤ maxSec) :
    coerce_datetime s = some (civilFromSeconds (secondsFromCivil (strpDt r) - off)) := by
  have ht : tryFmt Fmt.isoSecZ (pyStrip s) =
      some (civilFromSeconds (secondsFromCivil (strpDt r) - off)) := by
    unfold tryFmt
    rw [show fmtPc Fmt.isoSecZ = fIsoSecZ from rfl, hp]
    dsimp only
    rw [if_pos hv, hoff]
    dsimp only
    unfold toUtcNaive
    rw [if_neg (by omega)]
    dsimp only
    rw [if_neg ?_]
    simp only [Bool.or_eq_true, decide_eq_true_eq, not_or, not_lt]
    exact ⟨hlow, hhigh⟩
  unfold coerce_datetime
  dsimp only
  rw [show fmts = Fmt.isoSecZ ::
      [Fmt.isoSec, Fmt.isoMin, Fmt.ymdHM, Fmt.dbYHM, Fmt.dBYHM, Fmt.dbY, Fmt.dBY, Fmt.ymd]
    from rfl, coerceGo, ht]
  rfl

/-- Witness for the amended C7 at the token of the spec's example. -/
theorem coerce_offset_to_utc_witness :
    coerce_datetime ("2025-06-01T15:00:00+01:00") = some ⟨2025, 6, 1, 14, 0, 0⟩ := by
  have h := coerce_offset_to_utc ("2025-06-01T15:00:00+01:00")
    ⟨2025, 6, 1, 15, 0, 0, some 3600⟩ 3600
    (by decide) (by decide) (by decide) (by decide) (by decide) (by decide)
  rw [h]
  decide

/-- C7 counterexample: a date-and-time token with an explicit offset but
no seconds field is accepted by no format (the only offset-bearing
format demands seconds), so coercion yields "unknown" rather than the
UTC-converted clock time 2025-06-01 14:00:00 the claim requires. -/
theorem coerce_offset_no_seconds :
    coerce_datetime ("2025-06-01T15:00+01:00") = none ∧
      coerce_datetime ("2025-06-01T15:00+01:00") ≠ some ⟨2025, 6, 1, 14, 0, 0⟩ := by
  exact ⟨by decide, by decide⟩
